import Mathlib

/-!
Verification development for the procedural music generator
(react-version/src/services: musicTheory.js, sharedAudioEngine.js, synthesis.js).

Conventions of the shallow embedding:
* JavaScript numbers are modelled as `ℚ` (all arithmetic the engine performs on
  them is exact rational arithmetic: +, *, /, floor, ceil); `NaN`/`undefined`
  values flowing through arithmetic are modelled as `none : Option _`.
* A frequency `440 * 2 ^ (s / 12)` Hz is represented by its semitone offset
  `s : ℤ` from A4; an undefined (`NaN`) frequency is `none`.  The real-number
  value is spelled out explicitly in the theorems that need it.
* `Math.random()` is modelled as an ambient stream `r : ℕ → ℚ` of values,
  consumed left to right; every function that draws from the stream takes the
  index `k` of the next unconsumed value and returns the updated index.
* A thrown JavaScript exception is modelled as `none` at the function's result.
-/

namespace MusicGen

/-- `MusicTheory.getScale`'s interval-template table (`scales` object):
the five recognized scale types; any other key reads `undefined`. -/
def scalesTable (scaleType : String) : Option (List ℕ) :=
  if scaleType = ("major") then some [0, 2, 4, 5, 7, 9, 11]
  else if scaleType = ("minor") then some [0, 2, 3, 5, 7, 8, 10]
  else if scaleType = ("dorian") then some [0, 2, 3, 5, 7, 9, 10]
  else if scaleType = ("mixolydian") then some [0, 2, 4, 5, 7, 9, 10]
  else if scaleType = ("pentatonic") then some [0, 2, 4, 7, 9]
  else none

/-- `MusicTheory.getScale`'s `noteNumbers` table: the 17 recognized
pitch-class names (sharp/flat synonyms included). -/
def noteNumbers (root : String) : Option ℕ :=
  if root = ("C") then some 0
  else if root = ("C#") then some 1
  else if root = ("Db") then some 1
  else if root = ("D") then some 2
  else if root = ("D#") then some 3
  else if root = ("Eb") then some 3
  else if root = ("E") then some 4
  else if root = ("F") then some 5
  else if root = ("F#") then some 6
  else if root = ("Gb") then some 6
  else if root = ("G") then some 7
  else if root = ("G#") then some 8
  else if root = ("Ab") then some 8
  else if root = ("A") then some 9
  else if root = ("A#") then some 10
  else if root = ("Bb") then some 10
  else if root = ("B") then some 11
  else none

/-- `MusicTheory.getScale(root, scaleType)`.  The JS code evaluates
`scales[scaleType].map(...)`, so an unrecognized scale type throws a
`TypeError` (modelled as `none`); a recognized one maps each interval to
`(rootNumber + interval) % 12`.  (For an unrecognized root with a recognized
scale type the JS code would produce an array of `NaN`s instead; no claim
exercises that path, and it is modelled as `none` as well.) -/
def getScale (root scaleType : String) : Option (List ℕ) :=
  match scalesTable scaleType, noteNumbers root with
  | some template, some rootNumber =>
      some (template.map fun interval => (rootNumber + interval) % 12)
  | _, _ => none

/-- `MusicTheory.generateChordProgression(scale, progressionType)`: canned
degree-index tables, with `progressions[t] || progressions.pop` fallback.
The `scale` argument is unused, exactly as in the source. -/
def generateChordProgression (_scale : List ℕ) (progressionType : String) : List ℕ :=
  if progressionType = ("pop") then [0, 5, 3, 4]
  else if progressionType = ("jazz") then [0, 3, 4, 0]
  else if progressionType = ("blues") then [0, 0, 3, 0, 4, 3, 0, 4]
  else if progressionType = ("modern") then [5, 3, 0, 4]
  else if progressionType = ("ambient") then [0, 2, 4, 1]
  else [0, 5, 3, 4]

/-- `MusicTheory.getChordNotes`'s `chordTypes` table with the
`chordTypes[chordType] || chordTypes.triad` fallback. -/
def chordTypeIntervals (chordType : String) : List ℕ :=
  if chordType = ("triad") then [0, 2, 4]
  else if chordType = ("seventh") then [0, 2, 4, 6]
  else if chordType = ("ninth") then [0, 2, 4, 6, 1]
  else if chordType = ("sus2") then [0, 1, 4]
  else if chordType = ("sus4") then [0, 3, 4]
  else [0, 2, 4]

/-- `MusicTheory.getChordNotes(root, chordType, scale)`: each interval resolves
to `scale[(root + interval) % scale.length]`.  `root` is `Option`-valued
because callers read it out of a possibly-out-of-range array access; a `none`
root (JS `undefined`) makes the index `NaN`, hence every lookup `undefined`.
An empty scale would likewise give index `NaN`. -/
def getChordNotes (root : Option ℕ) (chordType : String) (scale : List ℕ) :
    List (Option ℕ) :=
  (chordTypeIntervals chordType).map fun interval =>
    match root with
    | none => none
    | some rootDegree =>
        if scale.length = 0 then none
        else scale[(rootDegree + interval) % scale.length]?

/-- `MusicTheory.noteToFrequency`'s semitone computation:
`(octave + floor(noteNumber/12) - 4) * 12 + (noteNumber % 12 - 9)`.
The returned frequency in Hz is `440 * 2 ^ (result / 12)`. -/
def semitonesFromA4 (noteNumber : ℕ) (octave : ℤ) : ℤ :=
  let noteInOctave : ℤ := (noteNumber % 12 : ℕ)
  let octaveNumber : ℤ := octave + (noteNumber / 12 : ℕ)
  (octaveNumber - 4) * 12 + (noteInOctave - 9)

/-- `MusicTheory.noteToFrequency(noteNumber, octave)`, with the positive real
frequency `440 * 2 ^ (s / 12)` represented by its semitone offset `s`;
`none` (an `undefined` note) yields `none` (a `NaN` frequency). -/
def noteToFrequency (noteNumber : Option ℕ) (octave : ℤ) : Option ℤ :=
  noteNumber.map fun n => semitonesFromA4 n octave

/-- One step of `MusicTheory.generateMelody`'s style-dependent direction
function (`styles[style] || styles.balanced`), returning the signed step and
the updated random-stream index.  `stepwise` draws two random values; the
other styles draw one. -/
def styleStep (style : String) (r : ℕ → ℚ) (k : ℕ) : ℤ × ℕ :=
  if style = ("ascending") then (if r k > 3/10 then 1 else 0, k + 1)
  else if style = ("descending") then (if r k > 3/10 then -1 else 0, k + 1)
  else if style = ("stepwise") then
    (if r k > 7/10 then (if r (k + 1) > 1/2 then 2 else -2)
     else (if r (k + 1) > 1/2 then 1 else -1), k + 2)
  else (⌊r k * 3⌋ - 1, k + 1)

/-- The bounded random walk inside `generateMelody`: `count` further steps,
each clamping `current + direction` to `[0, scale.length - 1]`
(`Math.max(0, Math.min(scale.length - 1, ...))`, over JS numbers, hence `ℤ`). -/
def melodyWalk (scale : List ℕ) (style : String) (r : ℕ → ℚ) :
    ℕ → ℤ → ℕ → List ℤ × ℕ
  | 0, _, k => ([], k)
  | count + 1, current, k =>
      let step := styleStep style r k
      let next := max 0 (min ((scale.length : ℤ) - 1) (current + step.1))
      let rest := melodyWalk scale style r count next step.2
      (next :: rest.1, rest.2)

/-- `MusicTheory.generateMelody(scale, length, style)`: starts at the middle
degree `floor(scale.length / 2)`, pushes it, walks `length - 1` further steps,
and maps every degree index through `scale[index]` (`none` = JS `undefined`
for an out-of-range index, which only happens on an empty scale). -/
def generateMelody (scale : List ℕ) (length : ℕ) (style : String)
    (r : ℕ → ℚ) (k : ℕ) : List (Option ℕ) × ℕ :=
  let start : ℤ := (scale.length / 2 : ℕ)
  let walk := melodyWalk scale style r (length - 1) start k
  ((start :: walk.1).map fun index => scale[index.toNat]?, walk.2)

/-- A drum pattern: one boolean step sequence per voice (the JS source uses
1/0 literals, read through `if (drumPattern[step])` truthiness). -/
structure DrumPattern where
  kick : List Bool
  snare : List Bool
  hihat : List Bool
deriving DecidableEq, Repr

/-- `RhythmPatterns.getDrumPattern`'s five per-genre 16-step patterns with
the `patterns[style] || patterns.rock` fallback. -/
def drumPatternsTable (style : String) : DrumPattern :=
  let t := true
  let f := false
  if style = ("rock") then
    { kick := [t, f, f, f, t, f, f, f, t, f, f, f, t, f, f, f]
      snare := [f, f, f, f, t, f, f, f, f, f, f, f, t, f, f, f]
      hihat := [t, f, t, f, t, f, t, f, t, f, t, f, t, f, t, f] }
  else if style = ("funk") then
    { kick := [t, f, f, t, f, f, t, f, f, f, t, f, f, f, f, f]
      snare := [f, f, f, f, t, f, f, t, f, f, f, f, t, f, f, f]
      hihat := [t, t, f, t, f, t, t, f, t, t, f, t, f, t, t, f] }
  else if style = ("jazz") then
    { kick := [t, f, f, f, f, f, t, f, f, f, f, f, t, f, f, f]
      snare := [f, f, t, f, f, f, f, f, f, f, t, f, f, f, f, f]
      hihat := [t, f, t, t, f, t, t, f, t, f, t, t, f, t, t, f] }
  else if style = ("electronic") then
    { kick := [t, f, f, f, t, f, f, f, t, f, f, f, t, f, f, f]
      snare := [f, f, f, f, t, f, f, f, f, f, f, f, t, f, f, f]
      hihat := [f, t, f, t, f, t, f, t, f, t, f, t, f, t, f, t] }
  else if style = ("latin") then
    { kick := [t, f, f, t, f, t, f, f, t, f, f, t, f, t, f, f]
      snare := [f, f, t, f, f, f, t, f, f, f, t, f, f, f, t, f]
      hihat := [t, t, t, t, t, t, t, t, t, t, t, t, t, t, t, t] }
  else
    { kick := [t, f, f, f, t, f, f, f, t, f, f, f, t, f, f, f]
      snare := [f, f, f, f, t, f, f, f, f, f, f, f, t, f, f, f]
      hihat := [t, f, t, f, t, f, t, f, t, f, t, f, t, f, t, f] }

/-- The `measures > 1` branch of `getDrumPattern`: each voice's array is the
single-measure array concatenated `measures` times. -/
def tilePattern (pattern : DrumPattern) (measures : ℕ) : DrumPattern :=
  { kick := (List.replicate measures pattern.kick).flatten
    snare := (List.replicate measures pattern.snare).flatten
    hihat := (List.replicate measures pattern.hihat).flatten }

/-- `RhythmPatterns.getDrumPattern(style, measures)`: the per-genre pattern
(rock fallback), tiled only when `measures > 1`. -/
def getDrumPattern (style : String) (measures : ℕ) : DrumPattern :=
  let pattern := drumPatternsTable style
  if measures > 1 then tilePattern pattern measures else pattern

/-- Total number of hits (true steps) across the kick, snare and hihat voices
of a drum pattern. -/
def drumPatternHits (pattern : DrumPattern) : ℕ :=
  pattern.kick.count true + pattern.snare.count true + pattern.hihat.count true

/-- A timed event pushed by the composition engine.  Note events carry a
frequency (semitone representation, see `noteToFrequency`) and a duration;
drum events carry neither in the JS source (the fields are absent), modelled
here by the `none` defaults. -/
structure Event where
  type : String
  instrument : String
  frequency : Option ℤ := none
  duration : Option ℚ := none
  velocity : ℚ
  startTime : ℚ
deriving DecidableEq, Repr

/-- A named track: `{name, instrument, events}`. -/
structure Track where
  name : String
  instrument : String
  events : List Event
deriving DecidableEq, Repr

/-- The sequence object returned by `AudioEngine.generateSong`. -/
structure Song where
  bpm : ℚ
  totalDuration : ℚ
  measures : ℕ
  tracks : List Track
deriving DecidableEq, Repr

/-- The `params` object of `generateSong`; `none` marks an omitted field,
defaulted by the destructuring in the JS source. -/
structure SongParams where
  bpm : Option ℚ := none
  key : Option String := none
  scale : Option String := none
  genre : Option String := none
  duration : Option ℚ := none
  instruments : Option (List String) := none
deriving DecidableEq, Repr

/-- The chord loop inside `generatePianoTrack`: one event per chord note, all
at the same `startTime`, each drawing one random value for its velocity
(`0.3 + random() * 0.2`). -/
def chordEvents (notes : List (Option ℕ)) (startTime chordDuration : ℚ)
    (r : ℕ → ℚ) (k : ℕ) : List Event × ℕ :=
  match notes with
  | [] => ([], k)
  | note :: rest =>
      let e : Event :=
        { type := "note", instrument := "piano"
          frequency := noteToFrequency note 4
          duration := some chordDuration
          velocity := 3/10 + r k * (2/10)
          startTime := startTime }
      let tail := chordEvents rest startTime chordDuration r (k + 1)
      (e :: tail.1, tail.2)

/-- One measure of `generatePianoTrack`: the chord at
`progression[measure % progression.length]` resolved to a triad, emitted at
beats 0 and 2 with duration 2 beats. -/
def pianoMeasure (scale progression : List ℕ) (beatDuration : ℚ) (measure : ℕ)
    (r : ℕ → ℚ) (k : ℕ) : List Event × ℕ :=
  let chordIndex := progression[measure % progression.length]?
  let chordNotes := getChordNotes chordIndex ("triad") scale
  let beat0 := chordEvents chordNotes
    ((measure : ℚ) * beatDuration * 4 + 0 * beatDuration) (beatDuration * 2) r k
  let beat2 := chordEvents chordNotes
    ((measure : ℚ) * beatDuration * 4 + 2 * beatDuration) (beatDuration * 2) r beat0.2
  (beat0.1 ++ beat2.1, beat2.2)

/-- The measure loop of `generatePianoTrack`, starting at measure `m` and
running for `count` measures. -/
def pianoLoop (scale progression : List ℕ) (beatDuration : ℚ) (r : ℕ → ℚ) :
    ℕ → ℕ → ℕ → List Event × ℕ
  | _, 0, k => ([], k)
  | m, count + 1, k =>
      let here := pianoMeasure scale progression beatDuration m r k
      let rest := pianoLoop scale progression beatDuration r (m + 1) count here.2
      (here.1 ++ rest.1, rest.2)

/-- `AudioEngine.generatePianoTrack(scale, progression, measures, beatDuration)`. -/
def generatePianoTrack (scale progression : List ℕ) (measures : ℕ)
    (beatDuration : ℚ) (r : ℕ → ℚ) (k : ℕ) : Track × ℕ :=
  let p := pianoLoop scale progression beatDuration r 0 measures k
  ({ name := "Piano", instrument := "piano", events := p.1 }, p.2)

/-- One measure of `generateBassTrack`: the chord root `scale[chordIndex]`
(no modulo — out of range on short scales!), a quarter note always emitted on
beat 0 and, with probability `random() > 0.3`, on beat 2. -/
def bassMeasure (scale progression : List ℕ) (beatDuration : ℚ) (measure : ℕ)
    (r : ℕ → ℚ) (k : ℕ) : List Event × ℕ :=
  let chordIndex := progression[measure % progression.length]?
  let rootNote := chordIndex.bind fun i => scale[i]?
  let e0 : Event :=
    { type := "note", instrument := "bass"
      frequency := noteToFrequency rootNote 2
      duration := some beatDuration
      velocity := 6/10 + r k * (2/10)
      startTime := (measure : ℚ) * beatDuration * 4 + 0 * beatDuration }
  if r (k + 1) > 3/10 then
    let e2 : Event :=
      { type := "note", instrument := "bass"
        frequency := noteToFrequency rootNote 2
        duration := some beatDuration
        velocity := 6/10 + r (k + 2) * (2/10)
        startTime := (measure : ℚ) * beatDuration * 4 + 2 * beatDuration }
    ([e0, e2], k + 3)
  else ([e0], k + 2)

/-- The measure loop of `generateBassTrack`. -/
def bassLoop (scale progression : List ℕ) (beatDuration : ℚ) (r : ℕ → ℚ) :
    ℕ → ℕ → ℕ → List Event × ℕ
  | _, 0, k => ([], k)
  | m, count + 1, k =>
      let here := bassMeasure scale progression beatDuration m r k
      let rest := bassLoop scale progression beatDuration r (m + 1) count here.2
      (here.1 ++ rest.1, rest.2)

/-- `AudioEngine.generateBassTrack(scale, progression, measures, beatDuration)`. -/
def generateBassTrack (scale progression : List ℕ) (measures : ℕ)
    (beatDuration : ℚ) (r : ℕ → ℚ) (k : ℕ) : Track × ℕ :=
  let p := bassLoop scale progression beatDuration r 0 measures k
  ({ name := "Bass", instrument := "bass", events := p.1 }, p.2)

/-- The step loop of `generateDrumTrack` for one voice and one measure:
walks the (already tiled!) voice pattern, emitting an event per true step at
`measure * beatDuration * 4 + step * stepDuration`, velocity
`0.7 + random() * 0.2`. -/
def drumSteps (drumType : String) (pattern : List Bool) (base stepDuration : ℚ)
    (r : ℕ → ℚ) : List Bool → ℕ → ℕ → List Event × ℕ
  | [], _, k => ([], k)
  | hit :: rest, step, k =>
      if hit then
        let e : Event :=
          { type := "drum", instrument := drumType
            velocity := 7/10 + r k * (2/10)
            startTime := base + (step : ℚ) * stepDuration }
        let tail := drumSteps drumType pattern base stepDuration r rest (step + 1) (k + 1)
        (e :: tail.1, tail.2)
      else drumSteps drumType pattern base stepDuration r rest (step + 1) k

/-- The measure loop of `generateDrumTrack` for one voice: for each measure it
replays the whole voice pattern (whose length is `measures * 16` after tiling —
the double iteration present in the source). -/
def drumVoiceLoop (drumType : String) (pattern : List Bool) (beatDuration : ℚ)
    (r : ℕ → ℚ) : ℕ → ℕ → ℕ → List Event × ℕ
  | _, 0, k => ([], k)
  | m, count + 1, k =>
      let here := drumSteps drumType pattern ((m : ℚ) * beatDuration * 4)
        (beatDuration / 4) r pattern 0 k
      let rest := drumVoiceLoop drumType pattern beatDuration r (m + 1) count here.2
      (here.1 ++ rest.1, rest.2)

/-- `AudioEngine.generateDrumTrack(pattern, measures, beatDuration)`: the three
voices in order kick, snare, hihat, each iterated over all measures. -/
def generateDrumTrack (pattern : DrumPattern) (measures : ℕ) (beatDuration : ℚ)
    (r : ℕ → ℚ) (k : ℕ) : Track × ℕ :=
  let kick := drumVoiceLoop ("kick") pattern.kick beatDuration r 0 measures k
  let snare := drumVoiceLoop ("snare") pattern.snare beatDuration r 0 measures kick.2
  let hihat := drumVoiceLoop ("hihat") pattern.hihat beatDuration r 0 measures snare.2
  ({ name := "Drums", instrument := "drums", events := kick.1 ++ snare.1 ++ hihat.1 },
   hihat.2)

/-- The event loop of `generateMelodyTrack`: one event per melody note at
`i * beatDuration`, octave 5, velocity `0.4 + random() * 0.3`, duration
`beatDuration * (0.7 + random() * 0.3)` (velocity drawn first). -/
def melodyEvents (beatDuration : ℚ) (r : ℕ → ℚ) :
    List (Option ℕ) → ℕ → ℕ → List Event × ℕ
  | [], _, k => ([], k)
  | note :: rest, i, k =>
      let e : Event :=
        { type := "note", instrument := "electricpiano"
          frequency := noteToFrequency note 5
          duration := some (beatDuration * (7/10 + r (k + 1) * (3/10)))
          velocity := 4/10 + r k * (3/10)
          startTime := (i : ℚ) * beatDuration }
      let tail := melodyEvents beatDuration r rest (i + 1) (k + 2)
      (e :: tail.1, tail.2)

/-- `AudioEngine.generateMelodyTrack(scale, measures, beatDuration, style)`:
a melody of `measures * 4` degrees (one per beat). -/
def generateMelodyTrack (scale : List ℕ) (measures : ℕ) (beatDuration : ℚ)
    (style : String) (r : ℕ → ℚ) (k : ℕ) : Track × ℕ :=
  let melodyLength := measures * 4
  let melody := generateMelody scale melodyLength style r k
  let p := melodyEvents beatDuration r melody.1 0 melody.2
  ({ name := "Melody", instrument := "electricpiano", events := p.1 }, p.2)

/-- The track-assembly portion of `generateSong`: one track per requested
instrument, generated in source order (piano, bass, drums, melody), the
random stream threaded through in that order. -/
def songTracks (scaleNotes chordProgression : List ℕ) (drumPattern : DrumPattern)
    (instruments : List String) (totalMeasures : ℕ) (beatDuration : ℚ)
    (genre : String) (r : ℕ → ℚ) : List Track :=
  let piano :=
    if instruments.contains ("piano") then
      let p := generatePianoTrack scaleNotes chordProgression totalMeasures beatDuration r 0
      ([p.1], p.2)
    else ([], 0)
  let bass :=
    if instruments.contains ("bass") then
      let p := generateBassTrack scaleNotes chordProgression totalMeasures beatDuration r piano.2
      ([p.1], p.2)
    else ([], piano.2)
  let drums :=
    if instruments.contains ("drums") then
      let p := generateDrumTrack drumPattern totalMeasures beatDuration r bass.2
      ([p.1], p.2)
    else ([], bass.2)
  let melody :=
    if instruments.contains ("melody") then
      let p := generateMelodyTrack scaleNotes totalMeasures beatDuration genre r drums.2
      ([p.1], p.2)
    else ([], drums.2)
  piano.1 ++ bass.1 ++ drums.1 ++ melody.1

/-- `AudioEngine.generateSong(params)`: destructuring defaults, timing
derivation (`beatDuration = 60/bpm`, `measureDuration = beatDuration * 4`,
`totalMeasures = ceil(duration / measureDuration)`), musical elements and
tracks.  `none` models the `TypeError` thrown by `getScale` on an
unrecognized scale type (the only throwing step). -/
def generateSong (params : SongParams) (r : ℕ → ℚ) : Option Song :=
  let bpm := params.bpm.getD 120
  let key := params.key.getD ("C")
  let scaleType := params.scale.getD ("major")
  let genre := params.genre.getD ("pop")
  let duration := params.duration.getD 30
  let instruments := params.instruments.getD [("piano"), ("bass"), ("drums")]
  let beatDuration := 60 / bpm
  let measureDuration := beatDuration * 4
  let totalMeasures := (⌈duration / measureDuration⌉).toNat
  match getScale key scaleType with
  | none => none
  | some scaleNotes =>
      let chordProgression := generateChordProgression scaleNotes genre
      let drumPattern := getDrumPattern genre totalMeasures
      some
        { bpm := bpm
          totalDuration := duration
          measures := totalMeasures
          tracks := songTracks scaleNotes chordProgression drumPattern instruments
            totalMeasures beatDuration genre r }

/-- A single assignment `envelope[i] = v` on a `Float32Array`: an assignment
at a negative or out-of-range index is silently ignored (`List.set` is a
no-op out of range, matching typed-array semantics). -/
def writeAt (l : List ℚ) (i : ℤ) (v : ℚ) : List ℚ :=
  if 0 ≤ i then l.set i.toNat v else l

/-- A sequence of `Float32Array` assignments, applied left to right. -/
def applyWrites (l : List ℚ) (ws : List (ℤ × ℚ)) : List ℚ :=
  ws.foldl (fun acc w => writeAt acc w.1 w.2) l

/-- The assignments of one `for` loop of `generateADSR`: `count` iterations
writing `f i` at index `start + i`.  Each loop in the source runs while both
`i < regionSamples` and `start + i < totalSamples` hold, so `count` is the
clamped minimum of the two bounds, computed by the callers below. -/
def regionWrites (start : ℤ) (count : ℕ) (f : ℕ → ℚ) : List (ℤ × ℚ) :=
  (List.range count).map fun i : ℕ => (start + (i : ℤ), f i)

/-- `EnhancedSynthesis.generateADSR(attack, decay, sustain, release, duration,
sampleRate)`: a zero-filled buffer of `floor(duration * sampleRate)` samples,
then the attack, decay, sustain and release loops in source order.  The
release loop indexes from `totalSamples - releaseSamples`, which the source
does not clamp, hence the `ℤ` indices. -/
def generateADSR (attack decay sustain release duration sampleRate : ℚ) : List ℚ :=
  let totalSamples : ℤ := ⌊duration * sampleRate⌋
  let attackSamples : ℤ := ⌊attack * sampleRate⌋
  let decaySamples : ℤ := ⌊decay * sampleRate⌋
  let releaseSamples : ℤ := ⌊release * sampleRate⌋
  let sustainSamples : ℤ := totalSamples - attackSamples - decaySamples - releaseSamples
  let attackW := regionWrites 0 (min attackSamples totalSamples).toNat
    (fun i => (i : ℚ) / (attackSamples : ℚ))
  let decayW := regionWrites attackSamples
    (min decaySamples (totalSamples - attackSamples)).toNat
    (fun i => 1 - (1 - sustain) * ((i : ℚ) / (decaySamples : ℚ)))
  let sustainW := regionWrites (attackSamples + decaySamples)
    (min sustainSamples (totalSamples - attackSamples - decaySamples)).toNat
    (fun _ => sustain)
  let releaseW := regionWrites (totalSamples - releaseSamples) releaseSamples.toNat
    (fun i => sustain * (1 - (i : ℚ) / (releaseSamples : ℚ)))
  applyWrites (List.replicate totalSamples.toNat 0)
    (attackW ++ decayW ++ sustainW ++ releaseW)

/-- JS addition lifted to `NaN`-aware values (`none` = `NaN`; `NaN`
propagates through every arithmetic operation). -/
def jAdd : Option ℚ → Option ℚ → Option ℚ
  | some a, some b => some (a + b)
  | _, _ => none

/-- JS multiplication lifted to `NaN`-aware values. -/
def jMul : Option ℚ → Option ℚ → Option ℚ
  | some a, some b => some (a * b)
  | _, _ => none

/-- The harmonic table of `synthesizePiano`: `(freq multiple, amp, phase)`. -/
def pianoHarmonics : List (ℚ × ℚ × ℚ) :=
  [(1, 8/10, 0), (2, 4/10, 1/10), (3, 2/10, 2/10),
   (4, 1/10, 3/10), (5, 5/100, 4/10), (6, 3/100, 5/10)]

/-- `EnhancedSynthesis.synthesizePiano(frequency, duration, velocity,
sampleRate)`.  `sine f t phase` is an abstract parameter standing for the
transcendental `Math.sin(2 * Math.PI * f * t + phase)`; every theorem below
holds for an arbitrary such function.  The result is `none` when
`floor(duration * sampleRate) < 0`, where `new Float32Array` throws a
`RangeError`; otherwise the additive-harmonic signal (with per-harmonic
inharmonicity `1 + 0.0001 * freq^2`) multiplied sample-wise by the piano
ADSR envelope `(0.01, 0.3, 0.3, 0.8)`.  A `NaN` frequency (`none`)
propagates into every sample. -/
def synthesizePiano (sine : ℚ → ℚ → ℚ) (frequency : Option ℚ)
    (duration velocity sampleRate : ℚ) : Option (List (Option ℚ)) :=
  let samples : ℤ := ⌊duration * sampleRate⌋
  if samples < 0 then none
  else
    let signal := (List.range samples.toNat).map fun i : ℕ =>
      let t : ℚ := (i : ℚ) / sampleRate
      pianoHarmonics.foldl
        (fun sample h =>
          let inharmonicity := 1 + (1/10000) * h.1 * h.1
          let harmonicFreq := jMul frequency (some (h.1 * inharmonicity))
          jAdd sample
            (jMul (some (h.2.1 * velocity))
              (harmonicFreq.map fun f => sine (f * t) h.2.2)))
        (some 0)
    let envelope := generateADSR (1/100) (3/10) (3/10) (8/10) duration sampleRate
    some (List.zipWith (fun s e => jMul s (some e)) signal envelope)

/-! ## Canonical startTime sequences

The raw startTime grids of the four generators, independent of the random
stream; used to relate two runs and to prove ordering. -/

/-- The startTimes emitted by `pianoLoop` from measure `m` for `c` measures:
three chord-note events at beat 0 and three at beat 2 of each measure. -/
def pianoTimes (bd : ℚ) : ℕ → ℕ → List ℚ
  | _, 0 => []
  | m, c + 1 =>
      (List.replicate 3 ((m : ℚ) * bd * 4 + 0 * bd)
        ++ List.replicate 3 ((m : ℚ) * bd * 4 + 2 * bd)) ++ pianoTimes bd (m + 1) c

/-- The startTimes emitted by `drumSteps` over a voice pattern, one per true
step. -/
def drumStepTimes (base stepDuration : ℚ) : List Bool → ℕ → List ℚ
  | [], _ => []
  | hit :: rest, step =>
      if hit then (base + (step : ℚ) * stepDuration) :: drumStepTimes base stepDuration rest (step + 1)
      else drumStepTimes base stepDuration rest (step + 1)

/-- The startTimes emitted by `drumVoiceLoop` from measure `m` for `c`
measures. -/
def drumVoiceTimes (pattern : List Bool) (bd : ℚ) : ℕ → ℕ → List ℚ
  | _, 0 => []
  | m, c + 1 =>
      drumStepTimes ((m : ℚ) * bd * 4) (bd / 4) pattern 0
        ++ drumVoiceTimes pattern bd (m + 1) c

/-- The startTimes emitted by `melodyEvents`: `count` beats from beat `i`. -/
def melodyTimes (bd : ℚ) : ℕ → ℕ → List ℚ
  | 0, _ => []
  | c + 1, i => ((i : ℚ) * bd) :: melodyTimes bd c (i + 1)

theorem chordEvents_map_startTime (notes : List (Option ℕ)) (t d : ℚ)
    (r : ℕ → ℚ) (k : ℕ) :
    ((chordEvents notes t d r k).1).map Event.startTime
      = List.replicate notes.length t := by
  induction notes generalizing k with
  | nil => rfl
  | cons n rest ih => simp [chordEvents, ih, List.replicate_succ]

theorem length_getChordNotes_triad (root : Option ℕ) (scale : List ℕ) :
    (getChordNotes root ("triad") scale).length = 3 := by
  simp [getChordNotes, chordTypeIntervals]

theorem pianoMeasure_map_startTime (scale progression : List ℕ) (bd : ℚ)
    (m : ℕ) (r : ℕ → ℚ) (k : ℕ) :
    ((pianoMeasure scale progression bd m r k).1).map Event.startTime
      = List.replicate 3 ((m : ℚ) * bd * 4 + 0 * bd)
        ++ List.replicate 3 ((m : ℚ) * bd * 4 + 2 * bd) := by
  simp [pianoMeasure, List.map_append, chordEvents_map_startTime,
    length_getChordNotes_triad]

theorem pianoLoop_map_startTime (scale progression : List ℕ) (bd : ℚ)
    (r : ℕ → ℚ) :
    ∀ (c m k : ℕ), ((pianoLoop scale progression bd r m c k).1).map Event.startTime
      = pianoTimes bd m c := by
  intro c
  induction c with
  | zero => intro m k; rfl
  | succ c ih =>
      intro m k
      simp [pianoLoop, List.map_append, pianoMeasure_map_startTime, ih, pianoTimes]

theorem bassMeasure_map_startTime (scale progression : List ℕ) (bd : ℚ)
    (m : ℕ) (r : ℕ → ℚ) (k : ℕ) :
    ((bassMeasure scale progression bd m r k).1).map Event.startTime
      = ((m : ℚ) * bd * 4 + 0 * bd) ::
          (if r (k + 1) > 3/10 then [(m : ℚ) * bd * 4 + 2 * bd] else []) := by
  simp only [bassMeasure]
  split <;> rfl

theorem drumSteps_map_startTime (drumType : String) (pattern : List Bool)
    (base sd : ℚ) (r : ℕ → ℚ) :
    ∀ (steps : List Bool) (step k : ℕ),
      ((drumSteps drumType pattern base sd r steps step k).1).map Event.startTime
        = drumStepTimes base sd steps step := by
  intro steps
  induction steps with
  | nil => intro step k; rfl
  | cons hit rest ih =>
      intro step k
      simp only [drumSteps, drumStepTimes]
      split
      · simp [ih]
      · exact ih _ _

theorem drumVoiceLoop_map_startTime (drumType : String) (pattern : List Bool)
    (bd : ℚ) (r : ℕ → ℚ) :
    ∀ (c m k : ℕ),
      ((drumVoiceLoop drumType pattern bd r m c k).1).map Event.startTime
        = drumVoiceTimes pattern bd m c := by
  intro c
  induction c with
  | zero => intro m k; rfl
  | succ c ih =>
      intro m k
      simp [drumVoiceLoop, List.map_append, drumSteps_map_startTime, ih,
        drumVoiceTimes]

theorem melodyEvents_map_startTime (bd : ℚ) (r : ℕ → ℚ) :
    ∀ (mel : List (Option ℕ)) (i k : ℕ),
      ((melodyEvents bd r mel i k).1).map Event.startTime
        = melodyTimes bd mel.length i := by
  intro mel
  induction mel with
  | nil => intro i k; rfl
  | cons n rest ih =>
      intro i k
      simp [melodyEvents, ih, melodyTimes]

theorem sorted_replicate (n : ℕ) (a : ℚ) :
    List.Pairwise (· ≤ ·) (List.replicate n a) := by
  induction n with
  | zero => exact List.Pairwise.nil
  | succ n ih =>
      rw [List.replicate_succ]
      exact List.Pairwise.cons (fun y hy => (List.eq_of_mem_replicate hy).ge) ih

theorem pianoTimes_sorted_ge (bd : ℚ) (hbd : 0 ≤ bd) :
    ∀ (c m : ℕ), List.Sorted (· ≤ ·) (pianoTimes bd m c)
      ∧ ∀ x ∈ pianoTimes bd m c, (m : ℚ) * bd * 4 ≤ x := by
  intro c
  induction c with
  | zero =>
      intro m
      exact ⟨List.sorted_nil, fun x hx => absurd hx (List.not_mem_nil _)⟩
  | succ c ih =>
      intro m
      have hmem : ∀ x ∈ List.replicate 3 ((m : ℚ) * bd * 4 + 0 * bd)
          ++ List.replicate 3 ((m : ℚ) * bd * 4 + 2 * bd),
          x = (m : ℚ) * bd * 4 + 0 * bd ∨ x = (m : ℚ) * bd * 4 + 2 * bd := by
        intro x hx
        rcases List.mem_append.mp hx with h | h
        · exact Or.inl (List.eq_of_mem_replicate h)
        · exact Or.inr (List.eq_of_mem_replicate h)
      constructor
      · rw [pianoTimes]
        apply List.pairwise_append.mpr
        refine ⟨?_, (ih (m + 1)).1, ?_⟩
        · apply List.pairwise_append.mpr
          refine ⟨sorted_replicate _ _, sorted_replicate _ _, ?_⟩
          intro x hx y hy
          rw [List.eq_of_mem_replicate hx, List.eq_of_mem_replicate hy]
          nlinarith
        · intro x hx y hy
          have hy' := (ih (m + 1)).2 y hy
          have hx' : x ≤ (m : ℚ) * bd * 4 + 2 * bd := by
            rcases hmem x hx with h | h <;> rw [h] <;> nlinarith
          have hstep : (m : ℚ) * bd * 4 + 2 * bd ≤ ((m + 1 : ℕ) : ℚ) * bd * 4 := by
            push_cast
            nlinarith
          linarith
      · intro x hx
        rw [pianoTimes] at hx
        rcases List.mem_append.mp hx with h | h
        · rcases hmem x h with h' | h' <;> rw [h'] <;> nlinarith
        · have := (ih (m + 1)).2 x h
          have hstep : (m : ℚ) * bd * 4 ≤ ((m + 1 : ℕ) : ℚ) * bd * 4 := by
            push_cast
            nlinarith
          linarith

theorem bassLoop_sorted (scale progression : List ℕ) (bd : ℚ) (r : ℕ → ℚ)
    (hbd : 0 ≤ bd) :
    ∀ (c m k : ℕ),
      List.Sorted (· ≤ ·)
        (((bassLoop scale progression bd r m c k).1).map Event.startTime)
      ∧ ∀ x ∈ ((bassLoop scale progression bd r m c k).1).map Event.startTime,
          (m : ℚ) * bd * 4 ≤ x := by
  intro c
  induction c with
  | zero =>
      intro m k
      exact ⟨List.sorted_nil, fun x hx => absurd hx (List.not_mem_nil _)⟩
  | succ c ih =>
      intro m k
      have hball : ∀ x ∈ ((bassMeasure scale progression bd m r k).1).map
          Event.startTime,
          x = (m : ℚ) * bd * 4 + 0 * bd ∨ x = (m : ℚ) * bd * 4 + 2 * bd := by
        intro x hx
        rw [bassMeasure_map_startTime] at hx
        rcases List.mem_cons.mp hx with h | h
        · exact Or.inl h
        · split at h
          · exact Or.inr (List.mem_singleton.mp h)
          · exact absurd h (List.not_mem_nil _)
      have hbsorted : List.Sorted (· ≤ ·)
          (((bassMeasure scale progression bd m r k).1).map Event.startTime) := by
        rw [bassMeasure_map_startTime]
        apply List.sorted_cons.mpr
        constructor
        · intro y hy
          split at hy
          · rw [List.mem_singleton.mp hy]
            nlinarith
          · exact absurd hy (List.not_mem_nil _)
        · split
          · exact List.sorted_singleton _
          · exact List.sorted_nil
      have hstep : (m : ℚ) * bd * 4 + 2 * bd ≤ ((m + 1 : ℕ) : ℚ) * bd * 4 := by
        push_cast
        nlinarith
      constructor
      · simp only [bassLoop, List.map_append]
        apply List.pairwise_append.mpr
        refine ⟨hbsorted, (ih (m + 1) _).1, ?_⟩
        intro x hx y hy
        have hy' := (ih (m + 1) _).2 y hy
        have hx' : x ≤ (m : ℚ) * bd * 4 + 2 * bd := by
          rcases hball x hx with h | h <;> rw [h] <;> nlinarith
        linarith
      · intro x hx
        simp only [bassLoop, List.map_append] at hx
        rcases List.mem_append.mp hx with h | h
        · rcases hball x h with h' | h' <;> rw [h'] <;> nlinarith
        · have := (ih (m + 1) _).2 x h
          have hstep' : (m : ℚ) * bd * 4 ≤ ((m + 1 : ℕ) : ℚ) * bd * 4 := by
            push_cast
            nlinarith
          linarith

theorem melodyTimes_sorted_ge (bd : ℚ) (hbd : 0 ≤ bd) :
    ∀ (c i : ℕ), List.Sorted (· ≤ ·) (melodyTimes bd c i)
      ∧ ∀ x ∈ melodyTimes bd c i, (i : ℚ) * bd ≤ x := by
  intro c
  induction c with
  | zero =>
      intro i
      exact ⟨List.sorted_nil, fun x hx => absurd hx (List.not_mem_nil _)⟩
  | succ c ih =>
      intro i
      have hstep : (i : ℚ) * bd ≤ ((i + 1 : ℕ) : ℚ) * bd := by
        push_cast
        nlinarith
      constructor
      · rw [melodyTimes]
        apply List.sorted_cons.mpr
        refine ⟨?_, (ih (i + 1)).1⟩
        intro y hy
        have := (ih (i + 1)).2 y hy
        linarith
      · intro x hx
        rw [melodyTimes] at hx
        rcases List.mem_cons.mp hx with h | h
        · rw [h]
        · have := (ih (i + 1)).2 x h
          linarith

theorem melodyWalk_length (scale : List ℕ) (style : String) (r : ℕ → ℚ) :
    ∀ (c : ℕ) (cur : ℤ) (k : ℕ), (melodyWalk scale style r c cur k).1.length = c := by
  intro c
  induction c with
  | zero => intro cur k; rfl
  | succ c ih =>
      intro cur k
      simp only [melodyWalk, List.length_cons, ih]

theorem length_generateMelody (scale : List ℕ) (len : ℕ) (style : String)
    (r : ℕ → ℚ) (k : ℕ) :
    (generateMelody scale len style r k).1.length = len - 1 + 1 := by
  simp only [generateMelody, List.map_cons, List.length_cons, List.length_map,
    melodyWalk_length]

theorem melodyTimes_length (bd : ℚ) :
    ∀ (c i : ℕ), (melodyTimes bd c i).length = c := by
  intro c
  induction c with
  | zero => intro i; rfl
  | succ c ih => intro i; simp [melodyTimes, ih]

theorem pianoLoop_length (scale progression : List ℕ) (bd : ℚ) (r : ℕ → ℚ)
    (m c k : ℕ) :
    (pianoLoop scale progression bd r m c k).1.length
      = (pianoTimes bd m c).length := by
  rw [← List.length_map _ Event.startTime, pianoLoop_map_startTime]

theorem drumVoiceLoop_length (drumType : String) (pattern : List Bool) (bd : ℚ)
    (r : ℕ → ℚ) (m c k : ℕ) :
    (drumVoiceLoop drumType pattern bd r m c k).1.length
      = (drumVoiceTimes pattern bd m c).length := by
  rw [← List.length_map _ Event.startTime, drumVoiceLoop_map_startTime]

theorem melodyEvents_length (bd : ℚ) (r : ℕ → ℚ) (mel : List (Option ℕ))
    (i k : ℕ) :
    (melodyEvents bd r mel i k).1.length = mel.length := by
  rw [← List.length_map _ Event.startTime, melodyEvents_map_startTime,
    melodyTimes_length]

/-- Every track assembled by `songTracks` is one of the four generators'
outputs (at some random-stream index). -/
theorem mem_songTracks {sn prog : List ℕ} {pat : DrumPattern}
    {instr : List String} {measures : ℕ} {bd : ℚ} {genre : String}
    {r : ℕ → ℚ} {t : Track}
    (ht : t ∈ songTracks sn prog pat instr measures bd genre r) :
    (∃ k, t = (generatePianoTrack sn prog measures bd r k).1)
    ∨ (∃ k, t = (generateBassTrack sn prog measures bd r k).1)
    ∨ (∃ k, t = (generateDrumTrack pat measures bd r k).1)
    ∨ (∃ k, t = (generateMelodyTrack sn measures bd genre r k).1) := by
  simp only [songTracks, List.mem_append] at ht
  rcases ht with ((h | h) | h) | h
  · left
    by_cases hc : instr.contains ("piano")
    · rw [if_pos hc] at h
      exact ⟨_, List.mem_singleton.mp h⟩
    · rw [if_neg hc] at h
      exact absurd h (List.not_mem_nil _)
  · right; left
    by_cases hc : instr.contains ("bass")
    · rw [if_pos hc] at h
      exact ⟨_, List.mem_singleton.mp h⟩
    · rw [if_neg hc] at h
      exact absurd h (List.not_mem_nil _)
  · right; right; left
    by_cases hc : instr.contains ("drums")
    · rw [if_pos hc] at h
      exact ⟨_, List.mem_singleton.mp h⟩
    · rw [if_neg hc] at h
      exact absurd h (List.not_mem_nil _)
  · right; right; right
    by_cases hc : instr.contains ("melody")
    · rw [if_pos hc] at h
      exact ⟨_, List.mem_singleton.mp h⟩
    · rw [if_neg hc] at h
      exact absurd h (List.not_mem_nil _)

/-! ## Lemmas about `Float32Array` assignment sequences -/

theorem writeAt_length (l : List ℚ) (i : ℤ) (v : ℚ) :
    (writeAt l i v).length = l.length := by
  unfold writeAt
  split
  · exact List.length_set ..
  · rfl

theorem applyWrites_cons (l : List ℚ) (w : ℤ × ℚ) (ws : List (ℤ × ℚ)) :
    applyWrites l (w :: ws) = applyWrites (writeAt l w.1 w.2) ws := rfl

theorem applyWrites_length (ws : List (ℤ × ℚ)) (l : List ℚ) :
    (applyWrites l ws).length = l.length := by
  induction ws generalizing l with
  | nil => rfl
  | cons w ws ih => rw [applyWrites_cons, ih, writeAt_length]

theorem getElem?_writeAt_ne (l : List ℚ) (i : ℤ) (v : ℚ) (j : ℕ)
    (h : i ≠ (j : ℤ)) : (writeAt l i v)[j]? = l[j]? := by
  unfold writeAt
  split
  · next hi => exact List.getElem?_set_ne (by omega)
  · rfl

theorem getElem?_applyWrites_miss (ws : List (ℤ × ℚ)) (l : List ℚ) (j : ℕ)
    (h : ∀ w ∈ ws, w.1 ≠ (j : ℤ)) : (applyWrites l ws)[j]? = l[j]? := by
  induction ws generalizing l with
  | nil => rfl
  | cons w ws ih =>
      rw [applyWrites_cons, ih _ fun w' hw' => h w' (List.mem_cons_of_mem _ hw'),
        getElem?_writeAt_ne _ _ _ _ (h w (List.mem_cons_self _ _))]

theorem getElem?_applyWrites_hit (ws : List (ℤ × ℚ)) (l : List ℚ) (j : ℕ) (v : ℚ)
    (hj : j < l.length) (hex : ∃ w ∈ ws, w.1 = (j : ℤ))
    (hall : ∀ w ∈ ws, w.1 = (j : ℤ) → w.2 = v) :
    (applyWrites l ws)[j]? = some v := by
  induction ws generalizing l with
  | nil =>
      obtain ⟨w, hw, -⟩ := hex
      exact absurd hw (List.not_mem_nil _)
  | cons w ws ih =>
      rw [applyWrites_cons]
      by_cases hex' : ∃ w' ∈ ws, w'.1 = (j : ℤ)
      · exact ih _ (by rw [writeAt_length]; exact hj) hex'
          fun w' hw' => hall w' (List.mem_cons_of_mem _ hw')
      · have hw1 : w.1 = (j : ℤ) := by
          obtain ⟨w', hw', h1⟩ := hex
          rcases List.mem_cons.mp hw' with h2 | h2
          · exact h2 ▸ h1
          · exact absurd ⟨w', h2, h1⟩ hex'
        have hw2 : w.2 = v := hall w (List.mem_cons_self _ _) hw1
        push_neg at hex'
        rw [getElem?_applyWrites_miss ws _ j hex']
        unfold writeAt
        rw [if_pos (by omega : (0 : ℤ) ≤ w.1), hw1, hw2]
        have hto : ((j : ℤ)).toNat = j := rfl
        rw [hto, List.getElem?_eq_getElem (by simpa using hj)]
        simp [List.getElem_set_self]

theorem mem_applyWrites (ws : List (ℤ × ℚ)) (l : List ℚ) (x : ℚ)
    (h : x ∈ applyWrites l ws) : x ∈ l ∨ ∃ w ∈ ws, x = w.2 := by
  induction ws generalizing l with
  | nil => exact Or.inl h
  | cons w ws ih =>
      rw [applyWrites_cons] at h
      rcases ih _ h with h' | ⟨w', hw', hx⟩
      · unfold writeAt at h'
        split at h'
        · rcases List.mem_or_eq_of_mem_set h' with h'' | h''
          · exact Or.inl h''
          · exact Or.inr ⟨w, List.mem_cons_self _ _, h''⟩
        · exact Or.inl h'
      · exact Or.inr ⟨w', List.mem_cons_of_mem _ hw', hx⟩

theorem mem_regionWrites {start : ℤ} {count : ℕ} {f : ℕ → ℚ} {w : ℤ × ℚ} :
    w ∈ regionWrites start count f ↔
      ∃ i : ℕ, i < count ∧ w = (start + (i : ℤ), f i) := by
  simp only [regionWrites, List.mem_map, List.mem_range]
  constructor
  · rintro ⟨i, hi, rfl⟩
    exact ⟨i, hi, rfl⟩
  · rintro ⟨i, hi, rfl⟩
    exact ⟨i, hi, rfl⟩

/-- The four assignment loops of `generateADSR`, spelled out. -/
theorem generateADSR_def (attack decay sustain release duration sampleRate : ℚ) :
    generateADSR attack decay sustain release duration sampleRate =
      applyWrites (List.replicate (⌊duration * sampleRate⌋).toNat 0)
        (regionWrites 0 (min ⌊attack * sampleRate⌋ ⌊duration * sampleRate⌋).toNat
            (fun i => (i : ℚ) / ((⌊attack * sampleRate⌋ : ℤ) : ℚ))
          ++ regionWrites ⌊attack * sampleRate⌋
              (min ⌊decay * sampleRate⌋
                (⌊duration * sampleRate⌋ - ⌊attack * sampleRate⌋)).toNat
              (fun i => 1 - (1 - sustain) * ((i : ℚ) / ((⌊decay * sampleRate⌋ : ℤ) : ℚ)))
          ++ regionWrites (⌊attack * sampleRate⌋ + ⌊decay * sampleRate⌋)
              (min (⌊duration * sampleRate⌋ - ⌊attack * sampleRate⌋
                  - ⌊decay * sampleRate⌋ - ⌊release * sampleRate⌋)
                (⌊duration * sampleRate⌋ - ⌊attack * sampleRate⌋
                  - ⌊decay * sampleRate⌋)).toNat
              (fun _ => sustain)
          ++ regionWrites (⌊duration * sampleRate⌋ - ⌊release * sampleRate⌋)
              (⌊release * sampleRate⌋).toNat
              (fun i => sustain * (1 - (i : ℚ) / ((⌊release * sampleRate⌋ : ℤ) : ℚ)))) := rfl

/-! ## Theorems -/

/-- C1: with tempo 120 BPM, duration 8 s and instruments `['drums']` the song
has `ceil(8/2) = 4` measures, but the drums track holds 224 events, not
`4 * 14 = 56` as the claim states: `getDrumPattern` already tiles the
16-step pattern to `4 * 16 = 64` steps, and `generateDrumTrack` then
iterates that tiled pattern once more per measure. -/
theorem drumTrack_eventCount_at_120bpm_8s :
    ((generateSong
        { bpm := some 120, duration := some 8, instruments := some [("drums")] }
        (fun _ => 0)).map
      fun s => (s.measures, s.tracks.map fun t => t.events.length))
      = some (4, [224])
    ∧ 4 * drumPatternHits (getDrumPattern ("pop") 1) = 56 := by
  constructor
  · with_unfolding_all rfl
  · with_unfolding_all rfl

/-- C2: for key C, the 5-note pentatonic scale and the pop progression
`[0, 5, 3, 4]`, the bass track's measure-1 lookup `scale[5]` is out of range
(`undefined`), so that event's frequency is `NaN` (`none`) — refuting the
invariant that every frequency is positive.  The three in-range measures give
the semitone offsets −33, −26, −24 (i.e. positive frequencies). -/
theorem bassTrack_pentatonic_pop_nan_frequency :
    ((generateSong
        { bpm := some 120, key := some ("C"), scale := some ("pentatonic"),
          genre := some ("pop"), duration := some 8, instruments := some [("bass")] }
        (fun _ => 0)).map
      fun s => s.tracks.map fun t => t.events.map fun e => e.frequency)
      = some [[some (-33), none, some (-26), some (-24)]] := by
  with_unfolding_all rfl

/-- C10: `generateSong` with an empty params object behaves exactly as with
the explicit defaults `bpm = 120`, `key = 'C'`, `scale = 'major'`,
`genre = 'pop'`, `duration = 30`, `instruments = ['piano','bass','drums']`;
in particular it yields bpm 120, totalDuration 30 and exactly the three
tracks piano, bass, drums, while an explicitly empty instrument list yields
zero tracks. -/
theorem generateSong_defaults (r : ℕ → ℚ) :
    generateSong {} r =
      generateSong
        { bpm := some 120, key := some ("C"), scale := some ("major"),
          genre := some ("pop"), duration := some 30,
          instruments := some [("piano"), ("bass"), ("drums")] } r
    ∧ ((generateSong {} r).map
        fun s => (s.bpm, s.totalDuration, s.tracks.map fun t => t.instrument))
        = some (120, 30, [("piano"), ("bass"), ("drums")])
    ∧ ((generateSong { instruments := some ([] : List String) } r).map
        fun s => s.tracks) = some [] := by
  refine ⟨rfl, ?_, ?_⟩
  · with_unfolding_all rfl
  · with_unfolding_all rfl

/-- C4: `getScale` on any scale type outside the five recognized ones fails
(the JS code throws reading `.map` of `undefined`, modelled as `none`) for
every root, substituting no default; on a recognized root and scale type it
returns the interval template mapped through
`(rootPitchClass + interval) mod 12`. -/
theorem getScale_fails_fast_and_formula :
    (∀ scaleType : String,
        scaleType ∉ ([("major"), ("minor"), ("dorian"), ("mixolydian"),
          ("pentatonic")] : List String) →
        ∀ root : String, getScale root scaleType = none)
    ∧ (∀ root rootNumber, noteNumbers root = some rootNumber →
        ∀ scaleType template, scalesTable scaleType = some template →
        getScale root scaleType =
          some (template.map fun interval => (rootNumber + interval) % 12)) := by
  constructor
  · intro t ht root
    have hs : scalesTable t = none := by
      simp only [List.mem_cons, List.mem_singleton, not_or] at ht
      obtain ⟨h1, h2, h3, h4, h5⟩ := ht
      simp [scalesTable, h1, h2, h3, h4, h5]
    unfold getScale
    rw [hs]
  · intro root n hroot t tpl htpl
    unfold getScale
    rw [htpl, hroot]

/-- C4 witness: `'chromatic'` is unrecognized and fails for root `'D'`, while
`getScale('D','major')` is the major template transposed by 2. -/
theorem getScale_fails_fast_and_formula_witness :
    (("chromatic") ∉ ([("major"), ("minor"), ("dorian"), ("mixolydian"),
        ("pentatonic")] : List String)
      ∧ getScale ("D") ("chromatic") = none)
    ∧ (noteNumbers ("D") = some 2
      ∧ getScale ("D") ("major") =
          some (([0, 2, 4, 5, 7, 9, 11] : List ℕ).map fun interval => (2 + interval) % 12)) :=
  ⟨⟨by decide,
    getScale_fails_fast_and_formula.1 ("chromatic") (by decide) ("D")⟩,
   ⟨by decide,
    getScale_fails_fast_and_formula.2 ("D") 2 (by decide) ("major") [0, 2, 4, 5, 7, 9, 11] (by decide)⟩⟩

/-- C8: `noteToFrequency` computes `440 * 2 ^ (semitonesFromA4 / 12)` Hz:
at pitch class 9, octave 4 (A4) this is exactly 440; raising the octave by
one adds 12 semitones and exactly doubles the frequency for every pitch
class and octave; in particular A5 is exactly 880. -/
theorem noteToFrequency_a4_and_octave_doubling :
    ((440 : ℝ) * (2 : ℝ) ^ (((semitonesFromA4 9 4 : ℤ) : ℝ) / 12) = 440)
    ∧ (∀ (p : ℕ) (o : ℤ),
        (440 : ℝ) * (2 : ℝ) ^ (((semitonesFromA4 p (o + 1) : ℤ) : ℝ) / 12)
          = 2 * ((440 : ℝ) * (2 : ℝ) ^ (((semitonesFromA4 p o : ℤ) : ℝ) / 12)))
    ∧ ((440 : ℝ) * (2 : ℝ) ^ (((semitonesFromA4 9 5 : ℤ) : ℝ) / 12) = 880) := by
  have hsemi : ∀ (p : ℕ) (o : ℤ),
      semitonesFromA4 p (o + 1) = semitonesFromA4 p o + 12 := by
    intro p o
    simp only [semitonesFromA4]
    ring
  refine ⟨?_, ?_, ?_⟩
  · have h : semitonesFromA4 9 4 = 0 := by decide
    rw [h]
    norm_num
  · intro p o
    rw [hsemi]
    have hcast : ((semitonesFromA4 p o + 12 : ℤ) : ℝ) / 12
        = ((semitonesFromA4 p o : ℤ) : ℝ) / 12 + 1 := by
      push_cast
      ring
    rw [hcast, Real.rpow_add (by norm_num : (0 : ℝ) < 2), Real.rpow_one]
    ring
  · have h : semitonesFromA4 9 5 = 12 := by decide
    rw [h]
    have hcast : ((12 : ℤ) : ℝ) / 12 = 1 := by norm_num
    rw [hcast, Real.rpow_one]
    norm_num

/-- C3 counterexample: with identical params (bass only, 2 measures) two
random streams produce bass tracks with different event counts (2 vs 4),
because the beat-2 bass note exists only when `random() > 0.3`. -/
theorem generateSong_bass_counts_differ_across_runs :
    ((generateSong
        { bpm := some 120, duration := some 4, instruments := some [("bass")] }
        (fun _ => 0)).map
      fun s => s.tracks.map fun t => t.events.length)
    ≠ ((generateSong
        { bpm := some 120, duration := some 4, instruments := some [("bass")] }
        (fun _ => 9/10)).map
      fun s => s.tracks.map fun t => t.events.length) := by
  with_unfolding_all decide

/-- C5 counterexample: for the drums track (the only track here) the event
startTimes are not non-decreasing: the kick voice's later steps precede the
snare voice's earlier steps in emission order. -/
theorem drumTrack_startTimes_not_sorted :
    ¬ List.Sorted (· ≤ ·)
      ((((generateSong
          { bpm := some 120, duration := some 2, instruments := some [("drums")] }
          (fun _ => 0)).getD
            { bpm := 0, totalDuration := 0, measures := 0, tracks := [] }).tracks.map
        fun t => t.events.map Event.startTime).flatten) := by
  with_unfolding_all decide

/-- C6 counterexample: with attack 0 (so `attackSamples = 0`), the decay loop
writes sample 0, whose value is then 1, not 0. -/
theorem generateADSR_sample0_not_zero_without_attack :
    ¬ ((generateADSR 0 (1/2) (1/2) 0 1 4)[0]? = some 0) := by
  with_unfolding_all decide

/-- C7 counterexample: a requested length of 0 still produces one note (the
starting middle degree is pushed before the loop), so the output length is
1, not the requested 0. -/
theorem generateMelody_length_zero_returns_one_note :
    ¬ ((generateMelody [0, 2, 4, 5, 7, 9, 11] 0 ("balanced") (fun _ => 0) 0).1.length = 0) := by
  with_unfolding_all decide

/-- Auxiliary to C3: the filtered track summaries (instrument, event count,
startTime list) of `songTracks` do not depend on the random stream, once the
bass track (whose beat-2 events are random) is filtered out. -/
theorem songTracks_filtered_indep (sn prog : List ℕ) (pat : DrumPattern)
    (instr : List String) (measures : ℕ) (bd : ℚ) (genre : String)
    (r r' : ℕ → ℚ) :
    ((songTracks sn prog pat instr measures bd genre r).filter
        (fun t => t.instrument != ("bass"))).map
      (fun t => (t.instrument, t.events.length, t.events.map Event.startTime))
    = ((songTracks sn prog pat instr measures bd genre r').filter
        (fun t => t.instrument != ("bass"))).map
      (fun t => (t.instrument, t.events.length, t.events.map Event.startTime)) := by
  have hpb : ((("piano") : String) != ("bass")) = true := by decide
  have hbb : ((("bass") : String) != ("bass")) = false := by decide
  have hdb : ((("drums") : String) != ("bass")) = true := by decide
  have heb : ((("electricpiano") : String) != ("bass")) = true := by decide
  simp only [songTracks]
  by_cases hp : ("piano") ∈ instr <;>
    by_cases hb : ("bass") ∈ instr <;>
      by_cases hd : ("drums") ∈ instr <;>
        by_cases hm : ("melody") ∈ instr <;>
          simp [hp, hb, hd, hm, generatePianoTrack, generateBassTrack,
            generateDrumTrack, generateMelodyTrack, List.filter_append,
            List.map_append, hpb, hbb, hdb, heb, pianoLoop_map_startTime,
            pianoLoop_length, drumVoiceLoop_map_startTime, drumVoiceLoop_length,
            melodyEvents_map_startTime, melodyEvents_length, length_generateMelody]

/-- C3 (amended): two runs of `generateSong` with identical params produce,
for each requested instrument other than bass, tracks with identical event
counts and identical startTime lists; the bass track is excluded because its
beat-2 events appear only when `random() > 0.3`, so even its event *count*
varies between runs (see the counterexample). -/
theorem generateSong_structure_independent_of_random_stream
    (params : SongParams) (r r' : ℕ → ℚ) :
    ((generateSong params r).map fun s =>
        (s.tracks.filter (fun t => t.instrument != ("bass"))).map
          fun t => (t.instrument, t.events.length, t.events.map Event.startTime))
    = ((generateSong params r').map fun s =>
        (s.tracks.filter (fun t => t.instrument != ("bass"))).map
          fun t => (t.instrument, t.events.length, t.events.map Event.startTime)) := by
  simp only [generateSong]
  cases hgs : getScale (params.key.getD ("C")) (params.scale.getD ("major")) with
  | none => rfl
  | some sn =>
      simp only [Option.map_some']
      exact congrArg some (songTracks_filtered_indep _ _ _ _ _ _ _ r r')

/-- C5 (amended): in every song the composition engine produces, the events
of each *melodic* track (piano, bass, melody) are in non-decreasing
startTime order; the drums track is excluded because its three voice streams
are concatenated (see the counterexample). -/
theorem generateSong_melodic_tracks_sorted (params : SongParams) (r : ℕ → ℚ)
    (hbpm : 0 < params.bpm.getD 120) :
    ∀ t ∈ ((generateSong params r).map Song.tracks).getD [],
      t.instrument ≠ ("drums") →
      List.Sorted (· ≤ ·) (t.events.map Event.startTime) := by
  intro t ht hne
  have hbd : 0 ≤ 60 / params.bpm.getD 120 :=
    le_of_lt (div_pos (by norm_num) hbpm)
  simp only [generateSong] at ht
  cases hgs : getScale (params.key.getD ("C")) (params.scale.getD ("major")) with
  | none =>
      rw [hgs] at ht
      simp at ht
  | some sn =>
      rw [hgs] at ht
      simp only [Option.map_some', Option.getD_some] at ht
      rcases mem_songTracks ht with ⟨k, rfl⟩ | ⟨k, rfl⟩ | ⟨k, rfl⟩ | ⟨k, rfl⟩
      · simp only [generatePianoTrack]
        rw [pianoLoop_map_startTime]
        exact (pianoTimes_sorted_ge _ hbd _ _).1
      · simp only [generateBassTrack]
        exact (bassLoop_sorted _ _ _ _ hbd _ _ _).1
      · exact absurd rfl hne
      · simp only [generateMelodyTrack]
        rw [melodyEvents_map_startTime]
        exact (melodyTimes_sorted_ge _ hbd _ _).1

/-- C5 witness: the amended theorem applied to the piano track of the song
at 240 BPM, duration 1 s (one measure), instruments `['piano']`, all-zeros
stream: its six events' startTimes `[0, 0, 0, 1/2, 1/2, 1/2]` are sorted. -/
theorem generateSong_melodic_tracks_sorted_witness :
    List.Sorted (· ≤ ·)
      (({ name := ("Piano"), instrument := ("piano"), events :=
          [{ type := ("note"), instrument := ("piano"), frequency := some (-9),
             duration := some (1/2), velocity := 3/10, startTime := 0 },
           { type := ("note"), instrument := ("piano"), frequency := some (-5),
             duration := some (1/2), velocity := 3/10, startTime := 0 },
           { type := ("note"), instrument := ("piano"), frequency := some (-2),
             duration := some (1/2), velocity := 3/10, startTime := 0 },
           { type := ("note"), instrument := ("piano"), frequency := some (-9),
             duration := some (1/2), velocity := 3/10, startTime := 1/2 },
           { type := ("note"), instrument := ("piano"), frequency := some (-5),
             duration := some (1/2), velocity := 3/10, startTime := 1/2 },
           { type := ("note"), instrument := ("piano"), frequency := some (-2),
             duration := some (1/2), velocity := 3/10, startTime := 1/2 }] } : Track).events.map
        Event.startTime) :=
  generateSong_melodic_tracks_sorted
    { bpm := some 240, duration := some 1, instruments := some [("piano")] }
    (fun _ => 0) (by with_unfolding_all decide)
    _ (by with_unfolding_all decide) (by decide)

/-- C6 (amended): for attack, decay, release ≥ 0, sustain in `[0,1]`,
duration and sample rate ≥ 0: the envelope length is
`floor(duration * sampleRate)`; the value at sample 0 is 0 *provided the
attack window spans at least one sample and the release window does not
reach back to sample 0* (otherwise the decay/sustain/release loop overwrites
sample 0 — see the counterexample); every value in the sustain region
(`floor(attack*sr) + floor(decay*sr) + i` for `i` below the clamped sustain
length) equals sustain exactly; and the envelope is non-negative
everywhere. -/
theorem generateADSR_length_start_sustain_nonneg
    (attack decay sustain release duration sampleRate : ℚ)
    (ha : 0 ≤ attack) (hd : 0 ≤ decay) (hs0 : 0 ≤ sustain) (hs1 : sustain ≤ 1)
    (hr : 0 ≤ release) (hdur : 0 ≤ duration) (hsr : 0 ≤ sampleRate) :
    (generateADSR attack decay sustain release duration sampleRate).length
        = (⌊duration * sampleRate⌋).toNat
    ∧ (1 ≤ ⌊attack * sampleRate⌋ →
        ⌊release * sampleRate⌋ < ⌊duration * sampleRate⌋ →
        (generateADSR attack decay sustain release duration sampleRate)[0]?
          = some 0)
    ∧ (∀ i : ℕ, (i : ℤ) < ⌊duration * sampleRate⌋ - ⌊attack * sampleRate⌋
          - ⌊decay * sampleRate⌋ - ⌊release * sampleRate⌋ →
        (generateADSR attack decay sustain release duration
          sampleRate)[(⌊attack * sampleRate⌋ + ⌊decay * sampleRate⌋).toNat + i]?
          = some sustain)
    ∧ (∀ x ∈ generateADSR attack decay sustain release duration sampleRate,
        0 ≤ x) := by
  have hA0 : 0 ≤ ⌊attack * sampleRate⌋ := Int.floor_nonneg.mpr (mul_nonneg ha hsr)
  have hD0 : 0 ≤ ⌊decay * sampleRate⌋ := Int.floor_nonneg.mpr (mul_nonneg hd hsr)
  have hR0 : 0 ≤ ⌊release * sampleRate⌋ := Int.floor_nonneg.mpr (mul_nonneg hr hsr)
  have hT0 : 0 ≤ ⌊duration * sampleRate⌋ := Int.floor_nonneg.mpr (mul_nonneg hdur hsr)
  rw [generateADSR_def]
  set T := ⌊duration * sampleRate⌋ with hTdef
  set A := ⌊attack * sampleRate⌋ with hAdef
  set D := ⌊decay * sampleRate⌋ with hDdef
  set R := ⌊release * sampleRate⌋ with hRdef
  refine ⟨?_, ?_, ?_, ?_⟩
  · rw [applyWrites_length, List.length_replicate]
  · intro hA1 hRT
    apply getElem?_applyWrites_hit
    · simp only [List.length_replicate]
      omega
    · refine ⟨((0 : ℤ) + ((0 : ℕ) : ℤ), ((0 : ℕ) : ℚ) / ((A : ℤ) : ℚ)), ?_, by simp⟩
      simp only [List.mem_append, mem_regionWrites]
      exact Or.inl (Or.inl (Or.inl ⟨0, by omega, rfl⟩))
    · rintro w hw hw1
      simp only [List.mem_append, mem_regionWrites] at hw
      rcases hw with ((⟨i, hi, rfl⟩ | ⟨i, hi, rfl⟩) | ⟨i, hi, rfl⟩) | ⟨i, hi, rfl⟩
      · simp only at hw1 ⊢
        have h0 : i = 0 := by omega
        subst h0
        simp
      · exfalso
        simp only at hw1
        omega
      · exfalso
        simp only at hw1
        omega
      · exfalso
        simp only at hw1
        omega
  · intro i hi
    apply getElem?_applyWrites_hit
    · simp only [List.length_replicate]
      omega
    · refine ⟨((A + D) + (i : ℤ), sustain), ?_, by push_cast; omega⟩
      simp only [List.mem_append, mem_regionWrites]
      exact Or.inl (Or.inr ⟨i, by omega, rfl⟩)
    · rintro w hw hw1
      simp only [List.mem_append, mem_regionWrites] at hw
      rcases hw with ((⟨i', hi', rfl⟩ | ⟨i', hi', rfl⟩) | ⟨i', hi', rfl⟩) | ⟨i', hi', rfl⟩
      · exfalso
        simp only at hw1
        omega
      · exfalso
        simp only at hw1
        omega
      · rfl
      · exfalso
        simp only at hw1
        omega
  · intro x hx
    rcases mem_applyWrites _ _ _ hx with h | ⟨w, hw, rfl⟩
    · rw [List.eq_of_mem_replicate h]
    · simp only [List.mem_append, mem_regionWrites] at hw
      rcases hw with ((⟨i, hi, rfl⟩ | ⟨i, hi, rfl⟩) | ⟨i, hi, rfl⟩) | ⟨i, hi, rfl⟩
      · exact div_nonneg (Nat.cast_nonneg i) (by exact_mod_cast hA0)
      · have hD1 : (1 : ℤ) ≤ D := by omega
        have hDpos : (0 : ℚ) < ((D : ℤ) : ℚ) := by exact_mod_cast hD1
        have hiD : (i : ℚ) / ((D : ℤ) : ℚ) ≤ 1 := by
          rw [div_le_one hDpos]
          exact_mod_cast (by omega : (i : ℤ) ≤ D)
        have h2 : (1 - sustain) * ((i : ℚ) / ((D : ℤ) : ℚ)) ≤ 1 :=
          mul_le_one₀ (by linarith)
            (div_nonneg (Nat.cast_nonneg i) (by exact_mod_cast hD0)) hiD
        simp only
        linarith
      · exact hs0
      · have hR1 : (1 : ℤ) ≤ R := by omega
        have hRpos : (0 : ℚ) < ((R : ℤ) : ℚ) := by exact_mod_cast hR1
        have hiR : (i : ℚ) / ((R : ℤ) : ℚ) ≤ 1 := by
          rw [div_le_one hRpos]
          exact_mod_cast (by omega : (i : ℤ) ≤ R)
        exact mul_nonneg hs0 (by linarith)

/-- C6 witness: the amended theorem at `(0.25, 0.25, 0.5, 0.25, 2, 4)`:
length 8, sample 0 is 0, sustain sample 2 is 0.5, all samples ≥ 0. -/
theorem generateADSR_length_start_sustain_nonneg_witness :
    (generateADSR (1/4) (1/4) (1/2) (1/4) 2 4).length = 8
    ∧ (generateADSR (1/4) (1/4) (1/2) (1/4) 2 4)[0]? = some 0
    ∧ (generateADSR (1/4) (1/4) (1/2) (1/4) 2 4)[2]? = some (1/2)
    ∧ ∀ x ∈ generateADSR (1/4) (1/4) (1/2) (1/4) 2 4, 0 ≤ x := by
  have h := generateADSR_length_start_sustain_nonneg (1/4) (1/4) (1/2) (1/4) 2 4
    (by norm_num) (by norm_num) (by norm_num) (by norm_num) (by norm_num)
    (by norm_num) (by norm_num)
  refine ⟨?_, ?_, ?_, h.2.2.2⟩
  · rw [h.1]
    with_unfolding_all rfl
  · exact h.2.1 (by with_unfolding_all decide) (by with_unfolding_all decide)
  · have h2 := h.2.2.1 0 (by with_unfolding_all decide)
    have hidx : (⌊(1/4 : ℚ) * 4⌋ + ⌊(1/4 : ℚ) * 4⌋).toNat + 0 = 2 := by
      with_unfolding_all rfl
    rw [hidx] at h2
    exact h2

/-- C9 counterexample: `synthesizePiano` performs no parameter validation:
given a `NaN` frequency (and positive duration) it returns a buffer of
`floor(duration * sampleRate)` `NaN` samples instead of failing. -/
theorem synthesizePiano_nan_frequency_returns_nan_buffer :
    synthesizePiano (fun _ _ => 0) none 1 (1/2) 8
      = some (List.replicate 8 none) := by
  with_unfolding_all rfl

theorem melodyWalk_bounds (scale : List ℕ) (style : String) (r : ℕ → ℚ)
    (hscale : scale ≠ []) :
    ∀ (c : ℕ) (cur : ℤ) (k : ℕ), ∀ x ∈ (melodyWalk scale style r c cur k).1,
      0 ≤ x ∧ x ≤ (scale.length : ℤ) - 1 := by
  have hlen : 1 ≤ scale.length := List.length_pos.mpr hscale
  intro c
  induction c with
  | zero => intro cur k x hx; exact absurd hx (List.not_mem_nil _)
  | succ c ih =>
      intro cur k x hx
      simp only [melodyWalk, List.mem_cons] at hx
      rcases hx with rfl | hx
      · constructor
        · exact le_max_left _ _
        · have : min ((scale.length : ℤ) - 1) (cur + (styleStep style r k).1)
              ≤ (scale.length : ℤ) - 1 := min_le_left _ _
          omega
      · exact ih _ _ x hx

/-- C7 (amended): for every nonempty scale, every requested length ≥ 1
(length 0 still yields one note, see the counterexample), every style tag and
every random stream: the melody has exactly the requested length, its first
element is `scale[floor(scale.length / 2)]`, and every element is a member of
the scale. -/
theorem generateMelody_length_head_membership
    (scale : List ℕ) (len : ℕ) (style : String) (r : ℕ → ℚ) (k : ℕ)
    (hscale : scale ≠ []) (hlen : 1 ≤ len) :
    (generateMelody scale len style r k).1.length = len
    ∧ (generateMelody scale len style r k).1.head? = some scale[scale.length / 2]?
    ∧ ∀ o ∈ (generateMelody scale len style r k).1, ∃ v ∈ scale, o = some v := by
  have hlenpos : 1 ≤ scale.length := List.length_pos.mpr hscale
  refine ⟨?_, ?_, ?_⟩
  · rw [length_generateMelody]
    omega
  · have hidx : (((scale.length / 2 : ℕ) : ℤ)).toNat = scale.length / 2 := by omega
    simp only [generateMelody, List.map_cons, List.head?_cons, hidx]
  · intro o ho
    simp only [generateMelody, List.map_cons, List.mem_cons, List.mem_map] at ho
    have hval : ∀ j : ℕ, j < scale.length → ∃ v ∈ scale, scale[j]? = some v := by
      intro j hj
      exact ⟨scale[j], List.getElem_mem hj, List.getElem?_eq_getElem hj⟩
    rcases ho with rfl | ⟨idx, hidx, rfl⟩
    · have hmid : ((scale.length / 2 : ℕ) : ℤ).toNat < scale.length := by
        have := Nat.div_lt_self (by omega : 0 < scale.length) (by omega : 1 < 2)
        omega
      exact hval _ hmid
    · have hb := melodyWalk_bounds scale style r hscale _ _ _ idx hidx
      exact hval _ (by omega)

/-- C7 witness: the amended theorem on the C-major scale, length 4,
balanced style, the all-zeros stream: result `[5, 4, 2, 0]`. -/
theorem generateMelody_length_head_membership_witness :
    (generateMelody [0, 2, 4, 5, 7, 9, 11] 4 ("balanced") (fun _ => 0) 0).1.length = 4
    ∧ (generateMelody [0, 2, 4, 5, 7, 9, 11] 4 ("balanced") (fun _ => 0) 0).1.head?
        = some (some 5)
    ∧ ∀ o ∈ (generateMelody [0, 2, 4, 5, 7, 9, 11] 4 ("balanced") (fun _ => 0) 0).1,
        ∃ v ∈ ([0, 2, 4, 5, 7, 9, 11] : List ℕ), o = some v := by
  have h := generateMelody_length_head_membership [0, 2, 4, 5, 7, 9, 11] 4
    ("balanced") (fun _ => 0) 0 (by decide) (by decide)
  refine ⟨h.1, ?_, h.2.2⟩
  rw [h.2.1]
  decide

theorem generateADSR_length (attack decay sustain release duration sampleRate : ℚ) :
    (generateADSR attack decay sustain release duration sampleRate).length
      = (⌊duration * sampleRate⌋).toNat := by
  rw [generateADSR_def, applyWrites_length, List.length_replicate]

theorem zipWith_replicate_none (f : Option ℚ → ℚ → Option ℚ)
    (hf : ∀ b, f none b = none) :
    ∀ (n : ℕ) (l : List ℚ), l.length = n →
      List.zipWith f (List.replicate n none) l = List.replicate n none := by
  intro n
  induction n with
  | zero => intro l hl; simp
  | succ n ih =>
      intro l hl
      cases l with
      | nil => simp at hl
      | cons b l =>
          simp only [List.replicate_succ, List.zipWith_cons_cons, hf,
            ih l (by simpa using hl)]

/-- C9 (amended): the synthesis functions perform no input validation and
never raise an `InvalidEventParameters` error: for every abstract sine
oscillator, whenever `floor(duration * sampleRate) ≥ 0` (a negative count
would make the typed-array constructor throw a `RangeError`),
`synthesizePiano` with a `NaN` frequency returns a buffer of
`floor(duration * sampleRate)` samples all of which are `NaN`. -/
theorem synthesizePiano_nan_propagation
    (sine : ℚ → ℚ → ℚ) (duration velocity sampleRate : ℚ)
    (h : 0 ≤ ⌊duration * sampleRate⌋) :
    synthesizePiano sine none duration velocity sampleRate
      = some (List.replicate (⌊duration * sampleRate⌋).toNat none) := by
  have hsig : (fun i : ℕ =>
      pianoHarmonics.foldl
        (fun sample h =>
          jAdd sample
            (jMul (some (h.2.1 * velocity))
              ((jMul none (some (h.1 * (1 + 1/10000 * h.1 * h.1)))).map
                fun f => sine (f * ((i : ℚ) / sampleRate)) h.2.2)))
        (some 0)) = fun _ => (none : Option ℚ) := by
    funext i
    rfl
  simp only [synthesizePiano]
  rw [if_neg (by omega), hsig, List.map_const', List.length_range]
  exact congrArg some (zipWith_replicate_none _ (fun b => rfl) _ _
    (by rw [generateADSR_length]))

/-- C9 witness: the amended theorem at duration 1, velocity 0.5,
sample rate 4: a buffer of four `NaN` samples. -/
theorem synthesizePiano_nan_propagation_witness :
    synthesizePiano (fun _ _ => 0) none 1 (1/2) 4 = some (List.replicate 4 none) := by
  have h := synthesizePiano_nan_propagation (fun _ _ => 0) 1 (1/2) 4
    (by with_unfolding_all decide)
  rw [h]
  with_unfolding_all rfl

end MusicGen
